import Mathlib

/-!
Verification of `src/models/layer.py` (temporal convolution building blocks).

Modelling conventions:
* A batched tensor of shape (batch, d1, d2) is modelled per batch element as a
  `Tensor3` with two explicit dimensions: every operation in the file acts on
  each batch element independently, so the batch axis is dropped.
  For convolutions, `d1` is the channel axis and `d2` the time axis.
* Entries are rationals (the float computations carry over verbatim to ℚ,
  except the weight-norm Euclidean norm, which is modelled over ℝ separately).
* `nn.Conv1d` is modelled by `conv1dForward`: it returns `none` exactly when
  PyTorch raises (channel mismatch, or padded input shorter than the dilated
  kernel extent, or a non-positive stride/dilation/kernel), and otherwise the
  cross-correlation with zero padding on both sides of the time axis.
* `nn.Dropout` in evaluation mode is the identity; it is modelled as such
  (it never changes shapes, and in train mode it is an element-wise mask,
  irrelevant to every shape/causality statement below).
* `weight_norm` recomputes the weight of a convolution from `weight_g`/`weight_v`
  in a pre-forward hook; the plain convolution layers below carry the weight
  that is in effect at forward time.  The hook mechanics themselves are
  modelled separately (over ℝ) for the initialization claims.
-/

/-- Sum of `f 0 + f 1 + ... + f (n-1)` (structural recursion, kernel-reducible). -/
def sumTo (f : ℕ → ℚ) : ℕ → ℚ
  | 0 => 0
  | n + 1 => sumTo f n + f n

/-- A 2-dimensional tensor slice (one batch element): `d1 × d2` with entries
`entry i j` meaningful for `i < d1`, `j < d2`. -/
structure Tensor3 where
  d1 : ℕ
  d2 : ℕ
  entry : ℕ → ℕ → ℚ

instance : Inhabited Tensor3 := ⟨⟨0, 0, fun _ _ => 0⟩⟩

/-- Reading channel `i` of `x` at position `idx` of the zero-padded time axis
(padding `p` on both sides, as PyTorch `padding=p` does). -/
def paddedEntry (x : Tensor3) (p : ℕ) (i idx : ℕ) : ℚ :=
  if p ≤ idx ∧ idx < p + x.d2 then x.entry i (idx - p) else 0

/-- The PyTorch Conv1d output length: `(L + 2p - (d*(k-1)+1)) / s + 1`. -/
def convOutLen (L k s p d : ℕ) : ℕ :=
  (L + 2 * p - (d * (k - 1) + 1)) / s + 1

/-- A 1-d convolution layer (weights as in effect at forward time). -/
structure Conv1dLayer where
  inChannels : ℕ
  outChannels : ℕ
  kernel : ℕ
  stride : ℕ
  padding : ℕ
  dilation : ℕ
  weight : ℕ → ℕ → ℕ → ℚ  -- weight o i m : out-channel, in-channel, tap
  bias : ℕ → ℚ

/-- The PyTorch shape check for Conv1d (`check_shape_forward`): the padded input
must be at least as long as the dilated kernel extent, the channel counts must
match, and stride/dilation/kernel must be positive. -/
def convValid (c : Conv1dLayer) (x : Tensor3) : Prop :=
  x.d1 = c.inChannels ∧ 1 ≤ c.stride ∧ 1 ≤ c.dilation ∧ 1 ≤ c.kernel ∧
    c.dilation * (c.kernel - 1) + 1 ≤ x.d2 + 2 * c.padding

instance (c : Conv1dLayer) (x : Tensor3) : Decidable (convValid c x) := by
  unfold convValid; infer_instance

/-- One output entry of the convolution: cross-correlation over the padded input. -/
def convEntry (c : Conv1dLayer) (x : Tensor3) (o j : ℕ) : ℚ :=
  c.bias o +
    sumTo (fun i => sumTo (fun m => c.weight o i m * paddedEntry x c.padding i (j * c.stride + m * c.dilation)) c.kernel) c.inChannels

/-- The output tensor of the convolution (meaningful under `convValid`). -/
def convResult (c : Conv1dLayer) (x : Tensor3) : Tensor3 :=
  ⟨c.outChannels, convOutLen x.d2 c.kernel c.stride c.padding c.dilation, convEntry c x⟩

/-- Model of `nn.Conv1d` forward: `none` exactly when PyTorch raises a shape error. -/
def conv1dForward (c : Conv1dLayer) (x : Tensor3) : Option Tensor3 :=
  if convValid c x then some (convResult c x) else none

/-- Model of `nn.ReLU`: element-wise `max 0`. -/
def reluT (x : Tensor3) : Tensor3 :=
  ⟨x.d1, x.d2, fun i j => max (x.entry i j) 0⟩

/-- Model of `nn.LeakyReLU` with negative slope `a`. -/
def leakyReluT (a : ℚ) (x : Tensor3) : Tensor3 :=
  ⟨x.d1, x.d2, fun i j => if 0 ≤ x.entry i j then x.entry i j else a * x.entry i j⟩

/-- Model of `Chomp1d.forward`, i.e. the Python slice `x[:, :, :-chomp_size]`:
for `chomp_size = 0` the slice `:-0` is `:0`, so the time axis becomes EMPTY;
for positive `chomp_size` it keeps the first `max (d2 - chomp_size) 0` steps. -/
def chomp1dForward (chompSize : ℕ) (x : Tensor3) : Tensor3 :=
  ⟨x.d1, if chompSize = 0 then 0 else x.d2 - chompSize, x.entry⟩

/-- Element-wise addition; `none` on shape mismatch (PyTorch would broadcast a
singleton axis, but no addition in this file is reached with mismatched
shapes where a singleton broadcast would apply). -/
def addT (a b : Tensor3) : Option Tensor3 :=
  if a.d1 = b.d1 ∧ a.d2 = b.d2 then
    some ⟨a.d1, a.d2, fun i j => a.entry i j + b.entry i j⟩
  else none

/-- Transpose of the two explicit axes (`Tensor.transpose(1, 2)`). -/
def transposeT (x : Tensor3) : Tensor3 :=
  ⟨x.d2, x.d1, fun i j => x.entry j i⟩

/-! ## TemporalBlock (layer.py lines 17-44) -/

/-- Construction data of a `TemporalBlock`: the scalar hyperparameters handed to
`__init__` and, for each convolution, the weight/bias in effect at forward
time (for `conv1`/`conv2` this is the weight recomputed by `weight_norm` from
`weight_g`/`weight_v`; see the weight-norm model below). -/
structure TemporalBlock where
  n_inputs : ℕ
  n_outputs : ℕ
  kernel_size : ℕ
  stride : ℕ
  dilation : ℕ
  padding : ℕ
  w1 : ℕ → ℕ → ℕ → ℚ
  b1 : ℕ → ℚ
  w2 : ℕ → ℕ → ℕ → ℚ
  b2 : ℕ → ℚ
  wd : ℕ → ℕ → ℕ → ℚ
  bd : ℕ → ℚ

instance : Inhabited TemporalBlock :=
  ⟨⟨0, 0, 0, 0, 0, 0, fun _ _ _ => 0, fun _ => 0, fun _ _ _ => 0, fun _ => 0,
    fun _ _ _ => 0, fun _ => 0⟩⟩

/-- Model of `self.conv1 = weight_norm(nn.Conv1d(n_inputs, n_outputs, kernel_size,
stride=stride, padding=padding, dilation=dilation))`. -/
def tb_conv1 (tb : TemporalBlock) : Conv1dLayer :=
  ⟨tb.n_inputs, tb.n_outputs, tb.kernel_size, tb.stride, tb.padding, tb.dilation, tb.w1, tb.b1⟩

/-- Model of `self.conv2 = weight_norm(nn.Conv1d(n_outputs, n_outputs, ...))`. -/
def tb_conv2 (tb : TemporalBlock) : Conv1dLayer :=
  ⟨tb.n_outputs, tb.n_outputs, tb.kernel_size, tb.stride, tb.padding, tb.dilation, tb.w2, tb.b2⟩

/-- The 1×1 projection built when `n_inputs != n_outputs`
(`nn.Conv1d(n_inputs, n_outputs, 1)`: kernel 1, stride 1, padding 0, dilation 1). -/
def tb_dsConv (tb : TemporalBlock) : Conv1dLayer :=
  ⟨tb.n_inputs, tb.n_outputs, 1, 1, 0, 1, tb.wd, tb.bd⟩

/-- Model of `self.downsample = nn.Conv1d(n_inputs, n_outputs, 1) if n_inputs != n_outputs else None`. -/
def tb_downsample (tb : TemporalBlock) : Option Conv1dLayer :=
  if tb.n_inputs = tb.n_outputs then none else some (tb_dsConv tb)

/-- Model of `self.net = Sequential(conv1, chomp1, relu1, dropout1, conv2, chomp2, relu2, dropout2)`
(dropout in evaluation mode is the identity). -/
def tb_net (tb : TemporalBlock) (x : Tensor3) : Option Tensor3 :=
  (conv1dForward (tb_conv1 tb) x).bind fun a1 =>
    (conv1dForward (tb_conv2 tb) (reluT (chomp1dForward tb.padding a1))).map fun a2 =>
      reluT (chomp1dForward tb.padding a2)

/-- Model of `res = x if self.downsample is None else self.downsample(x)`. -/
def tb_resPath (tb : TemporalBlock) (x : Tensor3) : Option Tensor3 :=
  match tb_downsample tb with
  | none => some x
  | some c => conv1dForward c x

/-- Model of `TemporalBlock.forward: return self.relu(out + res)`. -/
def tb_forward (tb : TemporalBlock) (x : Tensor3) : Option Tensor3 :=
  (tb_net tb x).bind fun out =>
    (tb_resPath tb x).bind fun res =>
      (addT out res).map reluT

/-! ## TemporalConvNet (layer.py lines 47-71) -/

/-- The per-level raw weights a `TemporalConvNet` construction consumes
(one sextuple per level, independent of the hyperparameters). -/
structure BlockWeights where
  w1 : ℕ → ℕ → ℕ → ℚ
  b1 : ℕ → ℚ
  w2 : ℕ → ℕ → ℕ → ℚ
  b2 : ℕ → ℚ
  wd : ℕ → ℕ → ℕ → ℚ
  bd : ℕ → ℚ

/-- Level `i` of `TemporalConvNet.__init__`: dilation `2^i`,
input channels `num_inputs` at level 0 and `num_channels[i-1]` afterwards,
output channels `num_channels[i]`, stride 1, padding `(kernel_size-1) * 2^i`. -/
def tcnBlock (num_inputs : ℕ) (num_channels : List ℕ) (kernel_size : ℕ)
    (ws : ℕ → BlockWeights) (i : ℕ) : TemporalBlock :=
  { n_inputs := if i = 0 then num_inputs else num_channels.getD (i - 1) 0
    n_outputs := num_channels.getD i 0
    kernel_size := kernel_size
    stride := 1
    dilation := 2 ^ i
    padding := (kernel_size - 1) * 2 ^ i
    w1 := (ws i).w1, b1 := (ws i).b1
    w2 := (ws i).w2, b2 := (ws i).b2
    wd := (ws i).wd, bd := (ws i).bd }

/-- The list of blocks built by `TemporalConvNet.__init__` for
`num_channels = [C1..Cn]`: one block per level. -/
def tcnBlocks (num_inputs : ℕ) (num_channels : List ℕ) (kernel_size : ℕ)
    (ws : ℕ → BlockWeights) : List TemporalBlock :=
  (List.range num_channels.length).map (tcnBlock num_inputs num_channels kernel_size ws)

/-- Model of `TemporalConvNet.forward`: the `nn.Sequential` of the blocks. -/
def tcnForwardAux (blocks : List TemporalBlock) (x : Tensor3) : Option Tensor3 :=
  blocks.foldl (fun acc b => acc.bind (tb_forward b)) (some x)

/-- Model of `TemporalConvNet(num_inputs, num_channels, kernel_size).forward`. -/
def tcnForward (num_inputs : ℕ) (num_channels : List ℕ) (kernel_size : ℕ)
    (ws : ℕ → BlockWeights) (x : Tensor3) : Option Tensor3 :=
  tcnForwardAux (tcnBlocks num_inputs num_channels kernel_size ws) x

/-! ## TextEncoderTCN (layer.py lines 74-97) -/

/-- Model of `max` of `g 0, ..., g n` (used for `torch.max(y, dim=1)[0]`). -/
def maxTo (g : ℕ → ℚ) : ℕ → ℚ
  | 0 => g 0
  | n + 1 => max (maxTo g n) (g (n + 1))

/-- Construction data of `TextEncoderTCN`: `num_channels = [args.hidden_size]`,
`tcn = TemporalConvNet(embed_size, num_channels, kernel_size)`,
`decoder = nn.Linear(num_channels[-1], args.word_f)`.  `decW`/`decB` are the
decoder weight/bias after `init_weights` (which draws the weight and zeroes
the bias); `bw` are the forward-time weights of the single block. -/
structure TextEncoderTCN where
  embed_size : ℕ
  hidden_size : ℕ
  word_f : ℕ
  kernel_size : ℕ
  bw : BlockWeights
  decW : ℕ → ℕ → ℚ
  decB : ℕ → ℚ

/-- The decoder `nn.Linear(hidden_size, word_f)` applied along the last axis
of a `(time, hidden)` tensor; `none` when the feature count mismatches. -/
def te_decoder (e : TextEncoderTCN) (y : Tensor3) : Option Tensor3 :=
  if y.d2 = e.hidden_size then
    some ⟨y.d1, e.word_f, fun t f => e.decB f + sumTo (fun h => e.decW f h * y.entry t h) e.hidden_size⟩
  else none

/-- Model of `torch.max(y, dim=1)[0]` on a `(time, word_f)` slice: the max over the
time axis for each feature; PyTorch raises on an empty reduction axis. -/
def maxOverTime (z : Tensor3) : Option (ℕ → ℚ) :=
  if z.d1 = 0 then none else some (fun f => maxTo (fun t => z.entry t f) (z.d1 - 1))

/-- Model of `TextEncoderTCN.forward`:
`y = self.tcn(input.transpose(1, 2)).transpose(1, 2); y = self.decoder(y);
return y, torch.max(y, dim=1)[0]`.  Note the source applies NO embedding and
never uses `self.drop`; the input is consumed as an already-embedded
`(time, embed_size)` sequence. -/
def te_forward (e : TextEncoderTCN) (input : Tensor3) : Option (Tensor3 × (ℕ → ℚ)) :=
  (tcnForward e.embed_size [e.hidden_size] e.kernel_size (fun _ => e.bw) (transposeT input)).bind fun y1 =>
    (te_decoder e (transposeT y1)).bind fun z =>
      (maxOverTime z).map fun m => (z, m)

/-- A token sequence presented to the encoder as a raw numeric tensor
(one feature per timestep), as it would be if `forward` were fed un-embedded
token indices. -/
def tokensTensor (tokens : List ℕ) : Tensor3 :=
  ⟨tokens.length, 1, fun t _ => (tokens.getD t 0 : ℚ)⟩

/-- Modelled from the spec: the pipeline the spec describes for
`TextEncoderTCN.forward` — "embeds a sequence, transposes to channel-first
layout, runs it through the stack, transposes back, and projects to an output
feature size via a linear layer; also returns the max-over-time pooled feature
vector".  `E` is the embedding table the first step of the spec uses (the source
module owns no such table). -/
def te_forward_specEmbed (E : ℕ → ℕ → ℚ) (e : TextEncoderTCN) (tokens : List ℕ) :
    Option (Tensor3 × (ℕ → ℚ)) :=
  let embedded : Tensor3 := ⟨tokens.length, e.embed_size, fun t j => E (tokens.getD t 0) j⟩
  (tcnForward e.embed_size [e.hidden_size] e.kernel_size (fun _ => e.bw) (transposeT embedded)).bind fun y1 =>
    (te_decoder e (transposeT y1)).bind fun z =>
      (maxOverTime z).map fun m => (z, m)

/-! ## ConvNormRelu / ResBlock / BasicBlock (layer.py lines 106-230) -/

/-- Evaluation-mode `nn.BatchNorm1d` as the per-channel affine map it computes
from its running statistics: `x ↦ x * scale_c + shift_c` with
`scale_c = γ_c / sqrt(var_c + eps)` and `shift_c = β_c - mean_c * scale_c`. -/
def bnAffine (scale shift : ℕ → ℚ) (x : Tensor3) : Tensor3 :=
  ⟨x.d1, x.d2, fun c t => scale c * x.entry c t + shift c⟩

/-- Model of `ResBlock(channel)`: two `Conv1d(channel, channel, kernel_size=3, stride=1,
padding=1)` with a `LeakyReLU(0.2)` in between. -/
structure ResBlock where
  channel : ℕ
  w1 : ℕ → ℕ → ℕ → ℚ
  b1 : ℕ → ℚ
  w2 : ℕ → ℕ → ℕ → ℚ
  b2 : ℕ → ℚ

def rb_conv1 (r : ResBlock) : Conv1dLayer :=
  ⟨r.channel, r.channel, 3, 1, 1, 1, r.w1, r.b1⟩

def rb_conv2 (r : ResBlock) : Conv1dLayer :=
  ⟨r.channel, r.channel, 3, 1, 1, 1, r.w2, r.b2⟩

/-- Model of `out = self.model(x)` — the tensor reaching the addition `out += residual`. -/
def rb_mainPre (r : ResBlock) (x : Tensor3) : Option Tensor3 :=
  (conv1dForward (rb_conv1 r) x).bind fun a =>
    conv1dForward (rb_conv2 r) (leakyReluT (2 / 10) a)

/-- Model of `ResBlock.forward`: `out = self.model(x); out += residual; return out`
(no activation after the addition). -/
def rb_forward (r : ResBlock) (x : Tensor3) : Option Tensor3 :=
  (rb_mainPre r x).bind fun out => addT out x

/-- Construction data of `BasicBlock` (1-d variant of the timm basic block):
`conv1 = Conv1d(inplanes, planes, ker_size, stride, padding=first_dilation,
dilation)`, `conv2 = Conv1d(planes, planes, ker_size, padding=ker_size//2,
dilation)`, and — when a `downsample` argument was passed — a fresh
`Sequential(Conv1d(inplanes, planes, ker_size, stride, padding=first_dilation,
dilation), norm)` shortcut.  BatchNorms are carried as their evaluation-mode
affine coefficients. -/
structure BasicBlock where
  inplanes : ℕ
  planes : ℕ
  ker_size : ℕ
  stride : ℕ
  dilation : ℕ
  first_dilation : ℕ
  has_downsample : Bool
  w1 : ℕ → ℕ → ℕ → ℚ
  b1 : ℕ → ℚ
  bn1s : ℕ → ℚ
  bn1b : ℕ → ℚ
  w2 : ℕ → ℕ → ℕ → ℚ
  b2 : ℕ → ℚ
  bn2s : ℕ → ℚ
  bn2b : ℕ → ℚ
  wd : ℕ → ℕ → ℕ → ℚ
  bd : ℕ → ℚ
  bnds : ℕ → ℚ
  bndb : ℕ → ℚ

def bb_conv1 (b : BasicBlock) : Conv1dLayer :=
  ⟨b.inplanes, b.planes, b.ker_size, b.stride, b.first_dilation, b.dilation, b.w1, b.b1⟩

def bb_conv2 (b : BasicBlock) : Conv1dLayer :=
  ⟨b.planes, b.planes, b.ker_size, 1, b.ker_size / 2, b.dilation, b.w2, b.b2⟩

def bb_dsConv (b : BasicBlock) : Conv1dLayer :=
  ⟨b.inplanes, b.planes, b.ker_size, b.stride, b.first_dilation, b.dilation, b.wd, b.bd⟩

/-- The main path up to (excluding) `x += shortcut`:
`conv1 → bn1 → act1 (LeakyReLU, default slope 0.01) → conv2 → bn2`. -/
def bb_mainPre (b : BasicBlock) (x : Tensor3) : Option Tensor3 :=
  (conv1dForward (bb_conv1 b) x).bind fun a1 =>
    (conv1dForward (bb_conv2 b) (leakyReluT (1 / 100) (bnAffine b.bn1s b.bn1b a1))).map fun a2 =>
      bnAffine b.bn2s b.bn2b a2

/-- The (possibly downsampled) shortcut reaching `x += shortcut`. -/
def bb_shortcut (b : BasicBlock) (x : Tensor3) : Option Tensor3 :=
  if b.has_downsample then
    (conv1dForward (bb_dsConv b) x).map (bnAffine b.bnds b.bndb)
  else some x

/-- Model of `BasicBlock.forward`: main path, residual addition, then `act2`. -/
def bb_forward (b : BasicBlock) (x : Tensor3) : Option Tensor3 :=
  (bb_mainPre b x).bind fun m =>
    (bb_shortcut b x).bind fun s =>
      (addT m s).map (leakyReluT (1 / 100))

/-! ## init_weight / init_weight_skcnn (layer.py lines 198-214) -/

/-- The module kinds occurring in this file. -/
inductive LayerKind where
  | conv1d
  | convTranspose1d
  | linear
  | batchNorm1d
  | relu
  | leakyReLU
  | dropout
  | embeddingLayer
deriving DecidableEq

/-- A module as the two init functions see it: its kind, a weight, and an optional
bias (both generic rectangular parameter arrays). -/
structure Module0 where
  kind : LayerKind
  weight : ℕ → ℕ → ℚ
  bias : Option (ℕ → ℚ)

/-- The `isinstance(m, nn.Conv1d) or isinstance(m, nn.Linear) or
isinstance(m, nn.ConvTranspose1d)` test both init functions use. -/
def isConvOrLinear (k : LayerKind) : Bool :=
  match k with
  | .conv1d => true
  | .convTranspose1d => true
  | .linear => true
  | _ => false

/-- Model of `init_weight`: Xavier-normal on the weight (the drawn values are the
`xavierSample` argument, standing for the RNG draw), constant 0 on the bias
when one exists; any other module kind is untouched. -/
def init_weight (xavierSample : ℕ → ℕ → ℚ) (m : Module0) : Module0 :=
  if isConvOrLinear m.kind then
    { m with weight := xavierSample, bias := m.bias.map (fun _ => (fun _ => 0)) }
  else m

/-- Model of `init_weight_skcnn`: Kaiming-uniform on the weight and a fan-in-bounded
uniform draw on the bias (both draws passed in as samples); any other module
kind is untouched. -/
def init_weight_skcnn (kaimingSample : ℕ → ℕ → ℚ) (biasSample : ℕ → ℚ) (m : Module0) : Module0 :=
  if isConvOrLinear m.kind then
    { m with weight := kaimingSample, bias := m.bias.map (fun _ => biasSample) }
  else m

/-! ## The weight_norm hook (for `TemporalBlock.init_weights`)

`weight_norm(conv)` removes `weight` from the parameters, registers
`weight_g = ‖weight‖_row` and `weight_v = weight`, re-binds `conv.weight` to
`weight_g * weight_v / ‖weight_v‖_row`, and installs a pre-forward hook that
re-binds `conv.weight` the same way before every forward call.
`init_weights` then mutates the tensor currently bound at `conv.weight`
(`self.conv1.weight.data.normal_(0, 0.01)`), which the hook replaces.
The Euclidean row norm forces this fragment of the model into ℝ. -/

def sumToR (f : ℕ → ℝ) : ℕ → ℝ
  | 0 => 0
  | n + 1 => sumToR f n + f n

/-- Squared L2 norm of output-row `o` of a conv weight (`dim=0` row norm). -/
def wnRowNormSq (w : ℕ → ℕ → ℕ → ℝ) (inC k o : ℕ) : ℝ :=
  sumToR (fun i => sumToR (fun m => w o i m ^ 2) k) inC

/-- Parameter state of a weight-normalized Conv1d: the trained parameters
`weight_g`, `weight_v`, and the tensor currently bound at `conv.weight`. -/
structure WNConv1d where
  inChannels : ℕ
  outChannels : ℕ
  kernel : ℕ
  weight_g : ℕ → ℝ
  weight_v : ℕ → ℕ → ℕ → ℝ
  weight : ℕ → ℕ → ℕ → ℝ

/-- Model of `WeightNorm.compute_weight`: `weight_g * weight_v / ‖weight_v‖_row`. -/
noncomputable def wnComputeWeight (c : WNConv1d) : ℕ → ℕ → ℕ → ℝ :=
  fun o i m =>
    c.weight_g o * c.weight_v o i m / Real.sqrt (wnRowNormSq c.weight_v c.inChannels c.kernel o)

/-- The pre-forward hook installed by `weight_norm`: re-bind `conv.weight`
to `compute_weight(weight_g, weight_v)`. -/
noncomputable def wnPreForwardHook (c : WNConv1d) : WNConv1d :=
  { c with weight := wnComputeWeight c }

/-- Model of `weight_norm(nn.Conv1d(...))` applied to a conv whose parameter tensor is
`w0`: `weight_g` holds the row norms, `weight_v` holds `w0`, and
`conv.weight` is bound to `compute_weight`. -/
noncomputable def applyWeightNorm (inC outC k : ℕ) (w0 : ℕ → ℕ → ℕ → ℝ) : WNConv1d :=
  wnPreForwardHook ⟨inC, outC, k, fun o => Real.sqrt (wnRowNormSq w0 inC k o), w0, w0⟩

/-- Model of `self.convN.weight.data.normal_(0, 0.01)`: overwrites the tensor bound at
`conv.weight` with the drawn `sample`; `weight_g`/`weight_v` are untouched. -/
def wnInitNormal (sample : ℕ → ℕ → ℕ → ℝ) (c : WNConv1d) : WNConv1d :=
  { c with weight := sample }

/-- The weight a weight-normalized conv actually convolves with: the
pre-forward hook re-binds `conv.weight` to `compute_weight` before the
convolution reads it. -/
noncomputable def wnForwardWeight (c : WNConv1d) : ℕ → ℕ → ℕ → ℝ :=
  wnComputeWeight c

/-! ## Shared lemmas -/

theorem conv1dForward_some_iff (c : Conv1dLayer) (x y : Tensor3) :
    conv1dForward c x = some y ↔ convValid c x ∧ y = convResult c x := by
  unfold conv1dForward
  split_ifs with h
  · simp [h, eq_comm]
  · simp [h]

theorem addT_some_iff (a b s : Tensor3) :
    addT a b = some s ↔
      (a.d1 = b.d1 ∧ a.d2 = b.d2) ∧
        s = ⟨a.d1, a.d2, fun i j => a.entry i j + b.entry i j⟩ := by
  unfold addT
  split_ifs with h
  · simp [h, eq_comm]
  · simp [h]

theorem sumTo_congr {f g : ℕ → ℚ} {n : ℕ} (h : ∀ i, i < n → f i = g i) :
    sumTo f n = sumTo g n := by
  induction n with
  | zero => rfl
  | succ n ih =>
    unfold sumTo
    rw [ih (fun i hi => h i (by omega)), h n (by omega)]

/-- Shapes computed by the conv-chomp-relu stage of `tb_net`. -/
theorem stage_shape (c : Conv1dLayer) (p : ℕ) (x : Tensor3) :
    (reluT (chomp1dForward p (convResult c x))).d1 = c.outChannels ∧
      (reluT (chomp1dForward p (convResult c x))).d2 =
        (if p = 0 then 0 else convOutLen x.d2 c.kernel c.stride c.padding c.dilation - p) := by
  simp [reluT, chomp1dForward, convResult]

/-- Under the construction of `TemporalConvNet` (stride 1, padding
`(kernel_size - 1) * dilation`), the two-convolution pipeline `self.net`
preserves the time length and outputs `n_outputs` channels. -/
theorem tb_net_shape (tb : TemporalBlock) (x out : Tensor3)
    (hs : tb.stride = 1) (hp : tb.padding = (tb.kernel_size - 1) * tb.dilation)
    (h : tb_net tb x = some out) :
    out.d1 = tb.n_outputs ∧ out.d2 = x.d2 := by
  unfold tb_net at h
  cases h1 : conv1dForward (tb_conv1 tb) x with
  | none => rw [h1] at h; exact absurd h (by simp)
  | some a1 =>
    rw [h1, Option.some_bind] at h
    cases h2 : conv1dForward (tb_conv2 tb) (reluT (chomp1dForward tb.padding a1)) with
    | none => rw [h2] at h; exact absurd h (by simp)
    | some a2 =>
      rw [h2, Option.map_some'] at h
      rw [Option.some_inj] at h
      obtain ⟨hv1, ha1⟩ := (conv1dForward_some_iff _ _ _).mp h1
      obtain ⟨hv2, ha2⟩ := (conv1dForward_some_iff _ _ _).mp h2
      have hq : tb.dilation * (tb.kernel_size - 1) = tb.padding := by
        rw [hp]; ring
      unfold convValid at hv1 hv2
      simp only [tb_conv1, tb_conv2] at hv1 hv2
      obtain ⟨-, -, hd1, hk1, hext1⟩ := hv1
      obtain ⟨-, -, -, -, hext2⟩ := hv2
      subst ha1 ha2
      rw [← h]
      by_cases hp0 : tb.padding = 0
      · -- padding 0 forces kernel_size = 1, and then the second convolution
        -- receives an empty input while requiring a positive one: impossible.
        exfalso
        simp [convResult, reluT, chomp1dForward, hp0] at hext2
      · refine ⟨by simp [reluT, chomp1dForward, convResult, tb_conv2], ?_⟩
        simp [reluT, chomp1dForward, convResult, convOutLen, tb_conv1, tb_conv2,
          hs, hp0] at hext1 hext2 ⊢
        omega

/-- The residual path preserves both dimensions whenever it succeeds and the
input has the channel count `conv1` demands. -/
theorem tb_resPath_shape (tb : TemporalBlock) (x res : Tensor3)
    (hx1 : x.d1 = tb.n_inputs)
    (h : tb_resPath tb x = some res) :
    res.d1 = tb.n_outputs ∧ res.d2 = x.d2 := by
  unfold tb_resPath tb_downsample at h
  split_ifs at h with heq
  · cases h
    exact ⟨by rw [hx1, heq], rfl⟩
  · obtain ⟨hv, hres⟩ := (conv1dForward_some_iff _ _ _).mp h
    unfold convValid at hv
    simp only [tb_dsConv] at hv
    subst hres
    refine ⟨rfl, ?_⟩
    simp only [convResult, convOutLen, tb_dsConv]
    omega

/-- Agreement of two tensors on every channel at every time position `u ≤ t`. -/
def agreeUpTo (t : ℕ) (x x' : Tensor3) : Prop :=
  ∀ ch u, u ≤ t → x.entry ch u = x'.entry ch u

/-- With stride 1 and dilated kernel extent at most the padding, a convolution
output at time `j` reads the input only at times `≤ j`. -/
theorem convEntry_agree (c : Conv1dLayer) {x x' : Tensor3} {t : ℕ}
    (hs : c.stride = 1) (hk : c.dilation * (c.kernel - 1) ≤ c.padding)
    (hd2 : x.d2 = x'.d2) (hx : agreeUpTo t x x') :
    ∀ o j, j ≤ t → convEntry c x o j = convEntry c x' o j := by
  intro o j hj
  unfold convEntry
  congr 1
  apply sumTo_congr
  intro i _
  apply sumTo_congr
  intro m hm
  congr 1
  unfold paddedEntry
  rw [← hd2]
  split_ifs with hcond
  · apply hx
    have h1 : m * c.dilation ≤ c.dilation * (c.kernel - 1) := by
      have hm' : m ≤ c.kernel - 1 := by omega
      calc m * c.dilation ≤ (c.kernel - 1) * c.dilation := Nat.mul_le_mul_right _ hm'
        _ = c.dilation * (c.kernel - 1) := Nat.mul_comm _ _
    rw [hs]
    omega
  · rfl

/-- The conv-chomp-relu stage preserves agreement up to time `t`. -/
theorem stage_agree (c : Conv1dLayer) (p : ℕ) {x x' : Tensor3} {t : ℕ}
    (hs : c.stride = 1) (hk : c.dilation * (c.kernel - 1) ≤ c.padding)
    (hd2 : x.d2 = x'.d2) (hx : agreeUpTo t x x') :
    agreeUpTo t (reluT (chomp1dForward p (convResult c x)))
      (reluT (chomp1dForward p (convResult c x'))) := by
  intro ch u hu
  simp only [reluT, chomp1dForward, convResult]
  rw [convEntry_agree c hs hk hd2 hx ch u hu]

/-- Agreement up to `t` passes through `self.net`. -/
theorem tb_net_agree (tb : TemporalBlock) {x x' : Tensor3} {t : ℕ}
    (hs : tb.stride = 1) (hk : tb.dilation * (tb.kernel_size - 1) ≤ tb.padding)
    (hd2 : x.d2 = x'.d2) (hx : agreeUpTo t x x')
    {out out' : Tensor3}
    (h : tb_net tb x = some out) (h' : tb_net tb x' = some out') :
    agreeUpTo t out out' := by
  unfold tb_net at h h'
  cases h1 : conv1dForward (tb_conv1 tb) x with
  | none => rw [h1] at h; simp at h
  | some a1 =>
    cases h1' : conv1dForward (tb_conv1 tb) x' with
    | none => rw [h1'] at h'; simp at h'
    | some a1' =>
      rw [h1, Option.some_bind] at h
      rw [h1', Option.some_bind] at h'
      obtain ⟨-, e1⟩ := (conv1dForward_some_iff _ _ _).mp h1
      obtain ⟨-, e1'⟩ := (conv1dForward_some_iff _ _ _).mp h1'
      subst e1 e1'
      have hmidAg : agreeUpTo t (reluT (chomp1dForward tb.padding (convResult (tb_conv1 tb) x)))
          (reluT (chomp1dForward tb.padding (convResult (tb_conv1 tb) x'))) :=
        stage_agree _ _ hs hk hd2 hx
      have hmidd2 : (reluT (chomp1dForward tb.padding (convResult (tb_conv1 tb) x))).d2
          = (reluT (chomp1dForward tb.padding (convResult (tb_conv1 tb) x'))).d2 := by
        simp [reluT, chomp1dForward, convResult, hd2]
      cases h2 : conv1dForward (tb_conv2 tb)
          (reluT (chomp1dForward tb.padding (convResult (tb_conv1 tb) x))) with
      | none => rw [h2] at h; simp at h
      | some a2 =>
        cases h2' : conv1dForward (tb_conv2 tb)
            (reluT (chomp1dForward tb.padding (convResult (tb_conv1 tb) x'))) with
        | none => rw [h2'] at h'; simp at h'
        | some a2' =>
          rw [h2, Option.map_some', Option.some_inj] at h
          rw [h2', Option.map_some', Option.some_inj] at h'
          obtain ⟨-, e2⟩ := (conv1dForward_some_iff _ _ _).mp h2
          obtain ⟨-, e2'⟩ := (conv1dForward_some_iff _ _ _).mp h2'
          subst e2 e2'
          subst h h'
          exact stage_agree _ _ hs hk hmidd2 hmidAg

/-- Agreement up to `t` passes through the residual path. -/
theorem tb_resPath_agree (tb : TemporalBlock) {x x' : Tensor3} {t : ℕ}
    (hd2 : x.d2 = x'.d2) (hx : agreeUpTo t x x')
    {res res' : Tensor3}
    (h : tb_resPath tb x = some res) (h' : tb_resPath tb x' = some res') :
    agreeUpTo t res res' := by
  unfold tb_resPath tb_downsample at h h'
  split_ifs at h h' with heq
  · cases h; cases h'; exact hx
  · obtain ⟨-, e⟩ := (conv1dForward_some_iff _ _ _).mp h
    obtain ⟨-, e'⟩ := (conv1dForward_some_iff _ _ _).mp h'
    subst e e'
    intro ch u hu
    simp only [convResult]
    exact convEntry_agree (tb_dsConv tb) (by simp [tb_dsConv]) (by simp [tb_dsConv])
      hd2 hx ch u hu

/-- C1: for every input tensor and every `TemporalBlock` built with stride 1,
dilation `d`, kernel size `k` and padding `(k - 1) * d`, whenever
`TemporalBlock.forward` produces an output, its time length equals the input
time length: the padding added by each convolution is exactly removed by the
following `Chomp1d` truncation. -/
theorem tb_forward_same_length (tb : TemporalBlock) (x y : Tensor3)
    (hs : tb.stride = 1) (hp : tb.padding = (tb.kernel_size - 1) * tb.dilation)
    (hy : tb_forward tb x = some y) : y.d2 = x.d2 := by
  unfold tb_forward at hy
  cases h1 : tb_net tb x with
  | none => rw [h1] at hy; simp at hy
  | some out =>
    rw [h1, Option.some_bind] at hy
    cases h2 : tb_resPath tb x with
    | none => rw [h2] at hy; simp at hy
    | some res =>
      rw [h2, Option.some_bind] at hy
      cases h3 : addT out res with
      | none => rw [h3] at hy; simp at hy
      | some s =>
        rw [h3, Option.map_some', Option.some_inj] at hy
        obtain ⟨-, hseq⟩ := (addT_some_iff _ _ _).mp h3
        subst hseq hy
        simp [reluT, (tb_net_shape tb x out hs hp h1).2]

/-- Concrete block for the C1 witness. -/
def tbC1 : TemporalBlock :=
  { n_inputs := 1, n_outputs := 1, kernel_size := 2, stride := 1, dilation := 1,
    padding := 1,
    w1 := fun _ _ _ => 1, b1 := fun _ => 0, w2 := fun _ _ _ => 1, b2 := fun _ => 0,
    wd := fun _ _ _ => 0, bd := fun _ => 0 }

/-- Concrete input for the C1 witness. -/
def xC1 : Tensor3 := ⟨1, 2, fun _ t => (t : ℚ) + 1⟩

/-- Witness for C1 at a concrete block and input. -/
theorem tb_forward_same_length_witness :
    tbC1.stride = 1 ∧ tbC1.padding = (tbC1.kernel_size - 1) * tbC1.dilation ∧
      tb_forward tbC1 xC1 = some ((tb_forward tbC1 xC1).getD default) ∧
      ((tb_forward tbC1 xC1).getD default).d2 = xC1.d2 := by
  refine ⟨rfl, rfl, rfl, ?_⟩
  exact tb_forward_same_length tbC1 xC1 _ rfl rfl rfl

/-- C2: `TemporalBlock.forward` is causal under the construction used by
`TemporalConvNet` (stride 1, padding `(kernel_size - 1) * dilation`): if two
same-shaped inputs agree at all time positions `≤ t`, the outputs agree at
every time position `≤ t`; changing an input value at a time never changes
the output at any earlier time. -/
theorem tb_forward_causal (tb : TemporalBlock) (x x' y y' : Tensor3) (t : ℕ)
    (hs : tb.stride = 1) (hp : tb.padding = (tb.kernel_size - 1) * tb.dilation)
    (hd2 : x.d2 = x'.d2)
    (hx : agreeUpTo t x x')
    (hy : tb_forward tb x = some y) (hy' : tb_forward tb x' = some y') :
    agreeUpTo t y y' := by
  have hk : tb.dilation * (tb.kernel_size - 1) ≤ tb.padding := by
    rw [hp]; exact le_of_eq (Nat.mul_comm _ _)
  unfold tb_forward at hy hy'
  cases h1 : tb_net tb x with
  | none => rw [h1] at hy; simp at hy
  | some out =>
    cases h1' : tb_net tb x' with
    | none => rw [h1'] at hy'; simp at hy'
    | some out' =>
      rw [h1, Option.some_bind] at hy
      rw [h1', Option.some_bind] at hy'
      cases h2 : tb_resPath tb x with
      | none => rw [h2] at hy; simp at hy
      | some res =>
        cases h2' : tb_resPath tb x' with
        | none => rw [h2'] at hy'; simp at hy'
        | some res' =>
          rw [h2, Option.some_bind] at hy
          rw [h2', Option.some_bind] at hy'
          cases h3 : addT out res with
          | none => rw [h3] at hy; simp at hy
          | some s =>
            cases h3' : addT out' res' with
            | none => rw [h3'] at hy'; simp at hy'
            | some s' =>
              rw [h3, Option.map_some', Option.some_inj] at hy
              rw [h3', Option.map_some', Option.some_inj] at hy'
              obtain ⟨-, hseq⟩ := (addT_some_iff _ _ _).mp h3
              obtain ⟨-, hseq'⟩ := (addT_some_iff _ _ _).mp h3'
              have hAgOut := tb_net_agree tb hs hk hd2 hx h1 h1'
              have hAgRes := tb_resPath_agree tb hd2 hx h2 h2'
              subst hseq hseq' hy hy'
              intro ch u hu
              simp only [reluT]
              rw [hAgOut ch u hu, hAgRes ch u hu]

/-- Concrete block for the C2 witness. -/
def tbC2 : TemporalBlock :=
  { n_inputs := 1, n_outputs := 1, kernel_size := 2, stride := 1, dilation := 1,
    padding := 1,
    w1 := fun _ _ _ => 1, b1 := fun _ => 0, w2 := fun _ _ _ => 1, b2 := fun _ => 0,
    wd := fun _ _ _ => 0, bd := fun _ => 0 }

/-- Concrete input for the C2 witness. -/
def xC2 : Tensor3 := ⟨1, 2, fun _ u => if u = 0 then 1 else 5⟩

/-- Second concrete input for the C2 witness: agrees with `xC2` at time 0,
differs at time 1. -/
def xC2' : Tensor3 := ⟨1, 2, fun _ u => if u = 0 then 1 else 9⟩

/-- Witness for C2 at a concrete block and pair of inputs. -/
theorem tb_forward_causal_witness :
    tbC2.stride = 1 ∧ tbC2.padding = (tbC2.kernel_size - 1) * tbC2.dilation ∧
      xC2.d2 = xC2'.d2 ∧ agreeUpTo 0 xC2 xC2' ∧
      tb_forward tbC2 xC2 = some ((tb_forward tbC2 xC2).getD default) ∧
      tb_forward tbC2 xC2' = some ((tb_forward tbC2 xC2').getD default) ∧
      agreeUpTo 0 ((tb_forward tbC2 xC2).getD default)
        ((tb_forward tbC2 xC2').getD default) := by
  have hag : agreeUpTo 0 xC2 xC2' := by
    intro ch u hu
    have hu0 : u = 0 := Nat.le_zero.mp hu
    subst hu0
    rfl
  refine ⟨rfl, rfl, rfl, hag, rfl, rfl, ?_⟩
  exact tb_forward_causal tbC2 xC2 xC2' _ _ 0 rfl rfl rfl hag rfl rfl

/-- C3: for `num_channels = [C1..Cn]`, the stack built by
`TemporalConvNet.__init__` has exactly `n` blocks, and block `i` (0-indexed)
uses dilation `2^i`, padding `(kernel_size - 1) * 2^i`, stride 1, output
channel count `C_i`, and input channel count `num_inputs` at level 0 and
`C_(i-1)` afterwards. -/
theorem tcn_stack_structure (num_inputs : ℕ) (cs : List ℕ) (k : ℕ) (ws : ℕ → BlockWeights) :
    (tcnBlocks num_inputs cs k ws).length = cs.length ∧
      ∀ i, i < cs.length →
        ((tcnBlocks num_inputs cs k ws).getD i default).dilation = 2 ^ i ∧
        ((tcnBlocks num_inputs cs k ws).getD i default).padding = (k - 1) * 2 ^ i ∧
        ((tcnBlocks num_inputs cs k ws).getD i default).stride = 1 ∧
        ((tcnBlocks num_inputs cs k ws).getD i default).n_outputs = cs.getD i 0 ∧
        ((tcnBlocks num_inputs cs k ws).getD i default).n_inputs =
          (if i = 0 then num_inputs else cs.getD (i - 1) 0) := by
  refine ⟨by simp [tcnBlocks], ?_⟩
  intro i hi
  have hget : (tcnBlocks num_inputs cs k ws).getD i default
      = tcnBlock num_inputs cs k ws i := by
    simp [tcnBlocks, List.getD_eq_getElem?_getD, List.getElem?_map, List.getElem?_range, hi]
  rw [hget]
  exact ⟨rfl, rfl, rfl, rfl, rfl⟩

/-- Zero weights for the C3 witness. -/
def wsC3 : ℕ → BlockWeights :=
  fun _ => ⟨fun _ _ _ => 0, fun _ => 0, fun _ _ _ => 0, fun _ => 0, fun _ _ _ => 0, fun _ => 0⟩

/-- Witness for C3 at a concrete two-level stack, inspecting level 1. -/
theorem tcn_stack_structure_witness :
    (1 : ℕ) < [3, 5].length ∧
      (tcnBlocks 2 [3, 5] 2 wsC3).length = [3, 5].length ∧
      ((tcnBlocks 2 [3, 5] 2 wsC3).getD 1 default).dilation = 2 ^ 1 ∧
      ((tcnBlocks 2 [3, 5] 2 wsC3).getD 1 default).padding = (2 - 1) * 2 ^ 1 ∧
      ((tcnBlocks 2 [3, 5] 2 wsC3).getD 1 default).stride = 1 ∧
      ((tcnBlocks 2 [3, 5] 2 wsC3).getD 1 default).n_outputs = [3, 5].getD 1 0 ∧
      ((tcnBlocks 2 [3, 5] 2 wsC3).getD 1 default).n_inputs =
        (if 1 = 0 then 2 else [3, 5].getD 0 0) := by
  have h := tcn_stack_structure 2 [3, 5] 2 wsC3
  have h1 := h.2 1 (by decide)
  exact ⟨by decide, h.1, h1.1, h1.2.1, h1.2.2.1, h1.2.2.2.1, h1.2.2.2.2⟩

/-- Conclusion shape of the C4 theorem: the output entries are the ReLU of the
sum of the two-convolution output and the residual. -/
def reluSumEntries (y out res : Tensor3) : Prop :=
  ∀ ch u, y.entry ch u = max (out.entry ch u + res.entry ch u) 0

/-- C4: the residual path is the identity exactly when `n_inputs = n_outputs`
and otherwise a learned 1×1 convolution producing `n_outputs` channels, and
the final ReLU is applied after adding the residual to the two-convolution
output. -/
theorem tb_residual_structure (tb : TemporalBlock) (x : Tensor3) :
    (tb_downsample tb = none ↔ tb.n_inputs = tb.n_outputs) ∧
      (tb.n_inputs = tb.n_outputs → tb_resPath tb x = some x) ∧
      (∀ c, tb_downsample tb = some c →
        c.inChannels = tb.n_inputs ∧ c.outChannels = tb.n_outputs ∧
          c.kernel = 1 ∧ c.stride = 1 ∧ c.padding = 0 ∧ c.dilation = 1) ∧
      ∀ y, tb_forward tb x = some y → ∃ out res,
        tb_net tb x = some out ∧ tb_resPath tb x = some res ∧
          out.d1 = res.d1 ∧ out.d2 = res.d2 ∧ reluSumEntries y out res := by
  refine ⟨?_, ?_, ?_, ?_⟩
  · unfold tb_downsample
    split_ifs with h <;> simp [h]
  · intro h
    unfold tb_resPath tb_downsample
    rw [if_pos h]
  · intro c hc
    unfold tb_downsample at hc
    split_ifs at hc with h
    rw [Option.some_inj] at hc
    subst hc
    exact ⟨rfl, rfl, rfl, rfl, rfl, rfl⟩
  · intro y hy
    unfold tb_forward at hy
    cases h1 : tb_net tb x with
    | none => rw [h1] at hy; simp at hy
    | some out =>
      rw [h1, Option.some_bind] at hy
      cases h2 : tb_resPath tb x with
      | none => rw [h2] at hy; simp at hy
      | some res =>
        rw [h2, Option.some_bind] at hy
        cases h3 : addT out res with
        | none => rw [h3] at hy; simp at hy
        | some s =>
          rw [h3, Option.map_some', Option.some_inj] at hy
          obtain ⟨⟨hsd1, hsd2⟩, hseq⟩ := (addT_some_iff _ _ _).mp h3
          subst hseq hy
          exact ⟨out, res, rfl, rfl, hsd1, hsd2, fun ch u => rfl⟩

/-- Concrete equal-channel block for the C4 witness. -/
def tbC4a : TemporalBlock :=
  { n_inputs := 1, n_outputs := 1, kernel_size := 2, stride := 1, dilation := 1,
    padding := 1,
    w1 := fun _ _ _ => 1, b1 := fun _ => 0, w2 := fun _ _ _ => 1, b2 := fun _ => 0,
    wd := fun _ _ _ => 0, bd := fun _ => 0 }

/-- Concrete widening block (1 input channel, 2 output channels) for the C4
witness. -/
def tbC4b : TemporalBlock :=
  { n_inputs := 1, n_outputs := 2, kernel_size := 2, stride := 1, dilation := 1,
    padding := 1,
    w1 := fun _ _ _ => 1, b1 := fun _ => 0, w2 := fun _ _ _ => 1, b2 := fun _ => 0,
    wd := fun _ _ _ => 1, bd := fun _ => 0 }

/-- Concrete input for the C4 witness. -/
def xC4 : Tensor3 := ⟨1, 2, fun _ _ => 1⟩

/-- Witness for C4 at the two concrete blocks. -/
theorem tb_residual_structure_witness :
    tb_resPath tbC4a xC4 = some xC4 ∧
      tb_downsample tbC4b = some (tb_dsConv tbC4b) ∧
      (tb_dsConv tbC4b).inChannels = tbC4b.n_inputs ∧
      (tb_dsConv tbC4b).outChannels = tbC4b.n_outputs ∧
      (tb_dsConv tbC4b).kernel = 1 ∧
      tb_forward tbC4b xC4 = some ((tb_forward tbC4b xC4).getD default) ∧
      tb_net tbC4b xC4 = some ((tb_net tbC4b xC4).getD default) ∧
      tb_resPath tbC4b xC4 = some ((tb_resPath tbC4b xC4).getD default) ∧
      ((tb_net tbC4b xC4).getD default).d1 = ((tb_resPath tbC4b xC4).getD default).d1 ∧
      ((tb_net tbC4b xC4).getD default).d2 = ((tb_resPath tbC4b xC4).getD default).d2 ∧
      reluSumEntries ((tb_forward tbC4b xC4).getD default)
        ((tb_net tbC4b xC4).getD default) ((tb_resPath tbC4b xC4).getD default) := by
  obtain ⟨out, res, hnet, hres, hd1, hd2, hent⟩ :=
    (tb_residual_structure tbC4b xC4).2.2.2 ((tb_forward tbC4b xC4).getD default) rfl
  have e1 : (tb_net tbC4b xC4).getD default = out := by rw [hnet]; rfl
  have e2 : (tb_resPath tbC4b xC4).getD default = res := by rw [hres]; rfl
  refine ⟨(tb_residual_structure tbC4a xC4).2.1 rfl, rfl, rfl, rfl, rfl, rfl, ?_, ?_, ?_, ?_, ?_⟩
  · rw [e1]; exact hnet
  · rw [e2]; exact hres
  · rw [e1, e2]; exact hd1
  · rw [e1, e2]; exact hd2
  · rw [e1, e2]; exact hent

/-- Characterization of decoder success. -/
theorem te_decoder_some_iff (e : TextEncoderTCN) (y z : Tensor3) :
    te_decoder e y = some z ↔
      y.d2 = e.hidden_size ∧
        z = ⟨y.d1, e.word_f,
          fun t f => e.decB f + sumTo (fun hh => e.decW f hh * y.entry t hh) e.hidden_size⟩ := by
  unfold te_decoder
  split_ifs with h
  · simp [h, eq_comm]
  · simp [h]

/-- Characterization of max-pooling success. -/
theorem maxOverTime_some_iff (z : Tensor3) (m : ℕ → ℚ) :
    maxOverTime z = some m ↔
      ¬z.d1 = 0 ∧ m = fun f => maxTo (fun t => z.entry t f) (z.d1 - 1) := by
  unfold maxOverTime
  split_ifs with h
  · simp [h]
  · simp [h, eq_comm]

/-- A temporal block as built by `TemporalConvNet` (stride 1, padding
`(kernel_size - 1) * dilation`, kernel at least 2, positive dilation) succeeds
on every input with the right channel count and a nonempty time axis, and
preserves the time length. -/
theorem tb_forward_succeeds (tb : TemporalBlock) (x : Tensor3)
    (hs : tb.stride = 1) (hp : tb.padding = (tb.kernel_size - 1) * tb.dilation)
    (hk2 : 2 ≤ tb.kernel_size) (hd : 1 ≤ tb.dilation)
    (hch : x.d1 = tb.n_inputs) (hL : 1 ≤ x.d2) :
    ∃ y, tb_forward tb x = some y ∧ y.d1 = tb.n_outputs ∧ y.d2 = x.d2 := by
  have hq : tb.dilation * (tb.kernel_size - 1) = tb.padding := by
    rw [hp]; ring
  have hppos : 1 ≤ tb.padding := by
    rw [hp]; exact Nat.mul_pos (by omega) (by omega)
  have hp0 : ¬tb.padding = 0 := by omega
  have hv1 : convValid (tb_conv1 tb) x := by
    refine ⟨hch, ?_, ?_, ?_, ?_⟩ <;> simp only [tb_conv1] <;> omega
  have hm1d2 : (reluT (chomp1dForward tb.padding (convResult (tb_conv1 tb) x))).d2 = x.d2 := by
    simp [reluT, chomp1dForward, convResult, convOutLen, tb_conv1, hs, hp0]
    omega
  have hm1d1 : (reluT (chomp1dForward tb.padding (convResult (tb_conv1 tb) x))).d1
      = tb.n_outputs := by
    simp [reluT, chomp1dForward, convResult, tb_conv1]
  have hv2 : convValid (tb_conv2 tb)
      (reluT (chomp1dForward tb.padding (convResult (tb_conv1 tb) x))) := by
    refine ⟨?_, ?_, ?_, ?_, ?_⟩ <;> simp only [tb_conv2, hm1d1, hm1d2] <;> omega
  have hnet : tb_net tb x = some (reluT (chomp1dForward tb.padding
      (convResult (tb_conv2 tb)
        (reluT (chomp1dForward tb.padding (convResult (tb_conv1 tb) x)))))) := by
    unfold tb_net conv1dForward
    rw [if_pos hv1, Option.some_bind, if_pos hv2, Option.map_some']
  have houtd2 : (reluT (chomp1dForward tb.padding
      (convResult (tb_conv2 tb)
        (reluT (chomp1dForward tb.padding (convResult (tb_conv1 tb) x)))))).d2 = x.d2 := by
    set mid := reluT (chomp1dForward tb.padding (convResult (tb_conv1 tb) x)) with hmiddef
    have hv2e := hv2.2.2.2.2
    simp only [tb_conv2] at hv2e
    simp only [reluT, chomp1dForward, convResult, convOutLen, tb_conv2, hs]
    rw [if_neg hp0]
    omega
  have houtd1 : (reluT (chomp1dForward tb.padding
      (convResult (tb_conv2 tb)
        (reluT (chomp1dForward tb.padding (convResult (tb_conv1 tb) x)))))).d1
      = tb.n_outputs := by
    simp [reluT, chomp1dForward, convResult, tb_conv2]
  set OUT := reluT (chomp1dForward tb.padding
      (convResult (tb_conv2 tb)
        (reluT (chomp1dForward tb.padding (convResult (tb_conv1 tb) x))))) with hOUTdef
  by_cases hio : tb.n_inputs = tb.n_outputs
  · have hres : tb_resPath tb x = some x := by
      unfold tb_resPath tb_downsample
      rw [if_pos hio]
    have hadd : addT OUT x
        = some ⟨OUT.d1, OUT.d2, fun i j => OUT.entry i j + x.entry i j⟩ := by
      unfold addT
      rw [if_pos ⟨by omega, houtd2⟩]
    refine ⟨reluT ⟨OUT.d1, OUT.d2, fun i j => OUT.entry i j + x.entry i j⟩, ?_, ?_, ?_⟩
    · unfold tb_forward
      rw [hnet, Option.some_bind, hres, Option.some_bind, hadd, Option.map_some']
    · simpa [reluT] using houtd1
    · simpa [reluT] using houtd2
  · have hvd : convValid (tb_dsConv tb) x := by
      refine ⟨?_, ?_, ?_, ?_, ?_⟩ <;> simp only [tb_dsConv] <;> omega
    have hres : tb_resPath tb x = some (convResult (tb_dsConv tb) x) := by
      unfold tb_resPath tb_downsample conv1dForward
      rw [if_neg hio]
      show (if convValid (tb_dsConv tb) x then some (convResult (tb_dsConv tb) x) else none)
          = some (convResult (tb_dsConv tb) x)
      rw [if_pos hvd]
    have hresd1 : (convResult (tb_dsConv tb) x).d1 = tb.n_outputs := by
      simp [convResult, tb_dsConv]
    have hresd2 : (convResult (tb_dsConv tb) x).d2 = x.d2 := by
      simp [convResult, convOutLen, tb_dsConv]
      omega
    have hadd : addT OUT (convResult (tb_dsConv tb) x)
        = some ⟨OUT.d1, OUT.d2,
            fun i j => OUT.entry i j + (convResult (tb_dsConv tb) x).entry i j⟩ := by
      unfold addT
      rw [if_pos ⟨by omega, by omega⟩]
    refine ⟨reluT ⟨OUT.d1, OUT.d2,
        fun i j => OUT.entry i j + (convResult (tb_dsConv tb) x).entry i j⟩, ?_, ?_, ?_⟩
    · unfold tb_forward
      rw [hnet, Option.some_bind, hres, Option.some_bind, hadd, Option.map_some']
    · simpa [reluT] using houtd1
    · simpa [reluT] using houtd2

/-- A one-level stack is a single temporal block. -/
theorem tcnForward_single (ni c0 k : ℕ) (ws : ℕ → BlockWeights) (x : Tensor3) :
    tcnForward ni [c0] k ws x = tb_forward (tcnBlock ni [c0] k ws 0) x := rfl

/-- Unit-valued block weights used by the C5 counterexample encoder. -/
def bwC5 : BlockWeights :=
  ⟨fun _ _ _ => 1, fun _ => 0, fun _ _ _ => 1, fun _ => 0, fun _ _ _ => 1, fun _ => 0⟩

/-- Concrete encoder for the C5 counterexample: embedding width 2, one hidden
channel, one output feature, kernel size 2. -/
def teC5 : TextEncoderTCN :=
  { embed_size := 2, hidden_size := 1, word_f := 1, kernel_size := 2,
    bw := bwC5, decW := fun _ _ => 1, decB := fun _ => 0 }

/-- Concrete token sequence for the C5 counterexample. -/
def toksC5 : List ℕ := [3]

/-- The single block of the C5 counterexample encoder. -/
def blkC5 : TemporalBlock := tcnBlock 2 [1] 2 (fun _ => teC5.bw) 0

/-- The sequence `toksC5` embedded by a table `E`, as the spec pipeline
prescribes: shape (time, embed_size). -/
def embC5 (E : ℕ → ℕ → ℚ) : Tensor3 := ⟨1, 2, fun t j => E (toksC5.getD t 0) j⟩

/-- The spec-prescribed embed-first pipeline succeeds on `toksC5` for EVERY
embedding table: all its shape checks depend only on dimensions. -/
theorem te_specEmbed_ne_none (E : ℕ → ℕ → ℚ) :
    te_forward_specEmbed E teC5 toksC5 ≠ none := by
  obtain ⟨y1, hy1, hyd1, hyd2⟩ :=
    tb_forward_succeeds blkC5 (transposeT (embC5 E)) rfl rfl (by decide) (by decide) rfl
      Nat.le.refl
  have hstep : te_forward_specEmbed E teC5 toksC5
      = (tb_forward blkC5 (transposeT (embC5 E))).bind fun v1 =>
          (te_decoder teC5 (transposeT v1)).bind fun z =>
            (maxOverTime z).map fun m => (z, m) := rfl
  intro hnone
  rw [hstep, hy1, Option.some_bind] at hnone
  have hz2 : (transposeT y1).d2 = teC5.hidden_size := by
    show y1.d1 = teC5.hidden_size
    rw [hyd1]
    rfl
  have hz1 : ¬(transposeT y1).d1 = 0 := by
    show ¬y1.d2 = 0
    rw [hyd2]
    exact Nat.one_ne_zero
  simp [te_decoder, hz2, maxOverTime, hz1] at hnone

/-- C5 counterexample: `TextEncoderTCN.forward` does NOT embed its input.  On
the raw token sequence `toksC5` the source forward fails (the un-embedded
input has 1 feature channel, not `embed_size`), while the embed-first pipeline
the spec describes succeeds — here exhibited with the all-ones table, and
`te_specEmbed_ne_none` shows no choice of table changes this. -/
theorem te_forward_no_embedding :
    te_forward teC5 (tokensTensor toksC5) = none ∧
      te_forward_specEmbed (fun _ _ => 1) teC5 toksC5 ≠ none :=
  ⟨rfl, te_specEmbed_ne_none (fun _ _ => 1)⟩

/-- Conclusion shape of the amended C5 theorem: the per-timestep output is the
decoder affine map of the (transposed-back) stack output. -/
def decodedEntries (e : TextEncoderTCN) (z y1 : Tensor3) : Prop :=
  ∀ t f, z.entry t f = e.decB f + sumTo (fun hh => e.decW f hh * y1.entry hh t) e.hidden_size

/-- Conclusion shape of the amended C5 theorem: the pooled vector is the
max over the time axis of the per-timestep output. -/
def pooledIsMax (z : Tensor3) (m : ℕ → ℚ) : Prop :=
  ∀ f, m f = maxTo (fun t => z.entry t f) (z.d1 - 1)

/-- C5 (amended): `TextEncoderTCN.forward` applies NO embedding; it transposes
its (already-embedded) input to channel-first layout, runs the one-level
temporal stack, transposes back, projects each timestep to `args.word_f` via
the linear decoder, and returns the full per-timestep output together with its
max-over-time pooled feature vector. -/
theorem te_forward_pipeline (e : TextEncoderTCN) (input : Tensor3) (z : Tensor3) (m : ℕ → ℚ)
    (h : te_forward e input = some (z, m)) :
    ∃ y1, tcnForward e.embed_size [e.hidden_size] e.kernel_size (fun _ => e.bw)
        (transposeT input) = some y1 ∧
      z.d1 = y1.d2 ∧ z.d2 = e.word_f ∧ decodedEntries e z y1 ∧
      1 ≤ z.d1 ∧ pooledIsMax z m := by
  unfold te_forward at h
  cases h1 : tcnForward e.embed_size [e.hidden_size] e.kernel_size (fun _ => e.bw)
      (transposeT input) with
  | none => rw [h1] at h; simp at h
  | some y1 =>
    rw [h1, Option.some_bind] at h
    cases h2 : te_decoder e (transposeT y1) with
    | none => rw [h2] at h; simp at h
    | some z0 =>
      rw [h2, Option.some_bind] at h
      cases h3 : maxOverTime z0 with
      | none => rw [h3] at h; simp at h
      | some m0 =>
        rw [h3, Option.map_some', Option.some_inj] at h
        injection h with hz hm
        subst hz hm
        obtain ⟨hyd2, hz0⟩ := (te_decoder_some_iff _ _ _).mp h2
        obtain ⟨hne, hm0⟩ := (maxOverTime_some_iff _ _).mp h3
        subst hz0
        refine ⟨y1, rfl, rfl, rfl, fun t f => rfl, by omega, ?_⟩
        intro f
        rw [hm0]

/-- Concrete encoder for the C5 witness. -/
def teW5 : TextEncoderTCN :=
  { embed_size := 1, hidden_size := 1, word_f := 1, kernel_size := 2,
    bw := ⟨fun _ _ _ => 1, fun _ => 0, fun _ _ _ => 1, fun _ => 0, fun _ _ _ => 0, fun _ => 0⟩,
    decW := fun _ _ => 1, decB := fun _ => 0 }

/-- Concrete (already-embedded) input for the C5 witness. -/
def xW5 : Tensor3 := ⟨1, 1, fun _ _ => 2⟩

/-- Witness for the amended C5 at a concrete encoder and input. -/
theorem te_forward_pipeline_witness :
    te_forward teW5 xW5 = some ((te_forward teW5 xW5).getD default) ∧
      tcnForward teW5.embed_size [teW5.hidden_size] teW5.kernel_size (fun _ => teW5.bw)
          (transposeT xW5)
        = some ((tcnForward teW5.embed_size [teW5.hidden_size] teW5.kernel_size
            (fun _ => teW5.bw) (transposeT xW5)).getD default) ∧
      ((te_forward teW5 xW5).getD default).1.d1
        = ((tcnForward teW5.embed_size [teW5.hidden_size] teW5.kernel_size
            (fun _ => teW5.bw) (transposeT xW5)).getD default).d2 ∧
      ((te_forward teW5 xW5).getD default).1.d2 = teW5.word_f ∧
      decodedEntries teW5 ((te_forward teW5 xW5).getD default).1
        ((tcnForward teW5.embed_size [teW5.hidden_size] teW5.kernel_size
          (fun _ => teW5.bw) (transposeT xW5)).getD default) ∧
      1 ≤ ((te_forward teW5 xW5).getD default).1.d1 ∧
      pooledIsMax ((te_forward teW5 xW5).getD default).1
        ((te_forward teW5 xW5).getD default).2 := by
  obtain ⟨y1, hy1, hzd1, hzd2, hdec, hpos, hpool⟩ :=
    te_forward_pipeline teW5 xW5 ((te_forward teW5 xW5).getD default).1
      ((te_forward teW5 xW5).getD default).2 rfl
  have e1 : (tcnForward teW5.embed_size [teW5.hidden_size] teW5.kernel_size
      (fun _ => teW5.bw) (transposeT xW5)).getD default = y1 := by
    rw [hy1]
    rfl
  refine ⟨rfl, ?_, ?_, hzd2, ?_, hpos, hpool⟩
  · rw [e1]; exact hy1
  · rw [e1]; exact hzd1
  · rw [e1]; exact hdec

/-- Concrete `BasicBlock` for the C6 counterexample: even kernel size 4,
stride 2, dilation 1, `first_dilation` 1, with downsample. -/
def bbC6 : BasicBlock :=
  { inplanes := 1, planes := 1, ker_size := 4, stride := 2, dilation := 1,
    first_dilation := 1, has_downsample := true,
    w1 := fun _ _ _ => 0, b1 := fun _ => 0, bn1s := fun _ => 1, bn1b := fun _ => 0,
    w2 := fun _ _ _ => 0, b2 := fun _ => 0, bn2s := fun _ => 1, bn2b := fun _ => 0,
    wd := fun _ _ _ => 0, bd := fun _ => 0, bnds := fun _ => 1, bndb := fun _ => 0 }

/-- Concrete input for the C6 counterexample. -/
def xC6 : Tensor3 := ⟨1, 4, fun _ _ => 1⟩

/-- C6 counterexample: with kernel size 4 (stride 2, dilation 1,
`first_dilation` 1) `BasicBlock` produces a main-path tensor of time length 3
but a downsampled shortcut of time length 2, so the residual addition is NOT
well-defined for every valid kernel size and stride — `forward` fails. -/
theorem bb_shape_mismatch :
    Option.map Tensor3.d2 (bb_mainPre bbC6 xC6) = some 3 ∧
      Option.map Tensor3.d2 (bb_shortcut bbC6 xC6) = some 2 ∧
      Option.map Tensor3.d1 (bb_mainPre bbC6 xC6) = some 1 ∧
      Option.map Tensor3.d1 (bb_shortcut bbC6 xC6) = some 1 ∧
      bb_forward bbC6 xC6 = none :=
  ⟨rfl, rfl, rfl, rfl, rfl⟩

/-- C6 (amended): `ResBlock` always produces a main-path tensor whose shape
equals the shortcut (= input) shape; `BasicBlock` does so when
`dilation * (ker_size - 1) = 2 * (ker_size / 2)` (e.g. odd kernel with
dilation 1) — with a downsample unconditionally on top of that, and without
one additionally requiring stride 1, `first_dilation = ker_size / 2` and
`inplanes = planes`. -/
theorem residual_add_shapes (r : ResBlock) (b : BasicBlock) (x xb : Tensor3) :
    (∀ m, rb_mainPre r x = some m → m.d1 = x.d1 ∧ m.d2 = x.d2) ∧
      (∀ m s, b.has_downsample = true →
        b.dilation * (b.ker_size - 1) = 2 * (b.ker_size / 2) →
        bb_mainPre b xb = some m → bb_shortcut b xb = some s →
        m.d1 = s.d1 ∧ m.d2 = s.d2) ∧
      (∀ m, b.has_downsample = false → b.stride = 1 →
        b.dilation * (b.ker_size - 1) = 2 * (b.ker_size / 2) →
        b.first_dilation = b.ker_size / 2 → b.inplanes = b.planes →
        bb_mainPre b xb = some m →
        bb_shortcut b xb = some xb ∧ m.d1 = xb.d1 ∧ m.d2 = xb.d2) := by
  refine ⟨?_, ?_, ?_⟩
  · intro m hm
    unfold rb_mainPre at hm
    cases h1 : conv1dForward (rb_conv1 r) x with
    | none => rw [h1] at hm; simp at hm
    | some a1 =>
      rw [h1, Option.some_bind] at hm
      obtain ⟨hv1, he1⟩ := (conv1dForward_some_iff _ _ _).mp h1
      obtain ⟨hv2, he2⟩ := (conv1dForward_some_iff _ _ _).mp hm
      unfold convValid at hv1 hv2
      subst he1 he2
      simp only [convResult, convOutLen, rb_conv1, rb_conv2, leakyReluT] at hv1 hv2 ⊢
      exact ⟨by omega, by omega⟩
  · intro m s hds hkd hm hs
    unfold bb_mainPre at hm
    unfold bb_shortcut at hs
    rw [hds] at hs
    rw [if_pos rfl] at hs
    cases h1 : conv1dForward (bb_conv1 b) xb with
    | none => rw [h1] at hm; simp at hm
    | some a1 =>
      rw [h1, Option.some_bind] at hm
      cases h2 : conv1dForward (bb_conv2 b) (leakyReluT (1 / 100) (bnAffine b.bn1s b.bn1b a1)) with
      | none => rw [h2] at hm; simp at hm
      | some a2 =>
        rw [h2, Option.map_some', Option.some_inj] at hm
        cases h3 : conv1dForward (bb_dsConv b) xb with
        | none => rw [h3] at hs; simp at hs
        | some ad =>
          rw [h3, Option.map_some', Option.some_inj] at hs
          obtain ⟨hv1, he1⟩ := (conv1dForward_some_iff _ _ _).mp h1
          obtain ⟨hv2, he2⟩ := (conv1dForward_some_iff _ _ _).mp h2
          obtain ⟨hv3, he3⟩ := (conv1dForward_some_iff _ _ _).mp h3
          unfold convValid at hv1 hv2 hv3
          subst he1 he2 he3
          subst hm hs
          constructor
          · simp [bnAffine, convResult, bb_conv2, bb_dsConv]
          · simp only [bnAffine, convResult, convOutLen, bb_conv1, bb_conv2, bb_dsConv,
              leakyReluT] at hv1 hv2 hv3 ⊢
            omega
  · intro m hds hst hkd hfd hpl hm
    unfold bb_mainPre at hm
    cases h1 : conv1dForward (bb_conv1 b) xb with
    | none => rw [h1] at hm; simp at hm
    | some a1 =>
      rw [h1, Option.some_bind] at hm
      cases h2 : conv1dForward (bb_conv2 b) (leakyReluT (1 / 100) (bnAffine b.bn1s b.bn1b a1)) with
      | none => rw [h2] at hm; simp at hm
      | some a2 =>
        rw [h2, Option.map_some', Option.some_inj] at hm
        obtain ⟨hv1, he1⟩ := (conv1dForward_some_iff _ _ _).mp h1
        obtain ⟨hv2, he2⟩ := (conv1dForward_some_iff _ _ _).mp h2
        unfold convValid at hv1 hv2
        subst he1 he2
        subst hm
        refine ⟨by simp [bb_shortcut, hds], ?_, ?_⟩
        · simp only [bnAffine, convResult, bb_conv1, bb_conv2] at hv1 ⊢
          omega
        · simp only [bnAffine, convResult, convOutLen, bb_conv1, bb_conv2, leakyReluT,
            hst] at hv1 hv2 ⊢
          omega

/-- Concrete resolution block (kernel 3, stride 1) for the C6 witness. -/
def rbW6 : ResBlock :=
  { channel := 1, w1 := fun _ _ _ => 1, b1 := fun _ => 0, w2 := fun _ _ _ => 1, b2 := fun _ => 0 }

/-- Concrete input for the ResBlock part of the C6 witness. -/
def xR6 : Tensor3 := ⟨1, 2, fun _ _ => 1⟩

/-- Concrete odd-kernel `BasicBlock` with downsample for the C6 witness. -/
def bbW6 : BasicBlock :=
  { inplanes := 1, planes := 1, ker_size := 3, stride := 2, dilation := 1,
    first_dilation := 1, has_downsample := true,
    w1 := fun _ _ _ => 1, b1 := fun _ => 0, bn1s := fun _ => 1, bn1b := fun _ => 0,
    w2 := fun _ _ _ => 1, b2 := fun _ => 0, bn2s := fun _ => 1, bn2b := fun _ => 0,
    wd := fun _ _ _ => 1, bd := fun _ => 0, bnds := fun _ => 1, bndb := fun _ => 0 }

/-- Concrete input for the downsampled BasicBlock part of the C6 witness. -/
def xB6 : Tensor3 := ⟨1, 4, fun _ _ => 1⟩

/-- Concrete odd-kernel `BasicBlock` without downsample for the C6 witness. -/
def bbW6n : BasicBlock :=
  { inplanes := 1, planes := 1, ker_size := 3, stride := 1, dilation := 1,
    first_dilation := 1, has_downsample := false,
    w1 := fun _ _ _ => 1, b1 := fun _ => 0, bn1s := fun _ => 1, bn1b := fun _ => 0,
    w2 := fun _ _ _ => 1, b2 := fun _ => 0, bn2s := fun _ => 1, bn2b := fun _ => 0,
    wd := fun _ _ _ => 0, bd := fun _ => 0, bnds := fun _ => 1, bndb := fun _ => 0 }

/-- Concrete input for the plain BasicBlock part of the C6 witness. -/
def xB6n : Tensor3 := ⟨1, 3, fun _ _ => 1⟩

/-- Witness for the amended C6 at concrete blocks and inputs. -/
theorem residual_add_shapes_witness :
    rb_mainPre rbW6 xR6 = some ((rb_mainPre rbW6 xR6).getD default) ∧
      ((rb_mainPre rbW6 xR6).getD default).d1 = xR6.d1 ∧
      ((rb_mainPre rbW6 xR6).getD default).d2 = xR6.d2 ∧
      bbW6.has_downsample = true ∧
      bbW6.dilation * (bbW6.ker_size - 1) = 2 * (bbW6.ker_size / 2) ∧
      bb_mainPre bbW6 xB6 = some ((bb_mainPre bbW6 xB6).getD default) ∧
      bb_shortcut bbW6 xB6 = some ((bb_shortcut bbW6 xB6).getD default) ∧
      ((bb_mainPre bbW6 xB6).getD default).d1 = ((bb_shortcut bbW6 xB6).getD default).d1 ∧
      ((bb_mainPre bbW6 xB6).getD default).d2 = ((bb_shortcut bbW6 xB6).getD default).d2 ∧
      bbW6n.has_downsample = false ∧ bbW6n.stride = 1 ∧
      bbW6n.dilation * (bbW6n.ker_size - 1) = 2 * (bbW6n.ker_size / 2) ∧
      bbW6n.first_dilation = bbW6n.ker_size / 2 ∧ bbW6n.inplanes = bbW6n.planes ∧
      bb_mainPre bbW6n xB6n = some ((bb_mainPre bbW6n xB6n).getD default) ∧
      bb_shortcut bbW6n xB6n = some xB6n ∧
      ((bb_mainPre bbW6n xB6n).getD default).d1 = xB6n.d1 ∧
      ((bb_mainPre bbW6n xB6n).getD default).d2 = xB6n.d2 := by
  have h := residual_add_shapes rbW6 bbW6 xR6 xB6
  have h1 := h.1 ((rb_mainPre rbW6 xR6).getD default) rfl
  have h2 := h.2.1 ((bb_mainPre bbW6 xB6).getD default)
    ((bb_shortcut bbW6 xB6).getD default) rfl rfl rfl rfl
  have hn := (residual_add_shapes rbW6 bbW6n xR6 xB6n).2.2
    ((bb_mainPre bbW6n xB6n).getD default) rfl rfl rfl rfl rfl rfl
  exact ⟨rfl, h1.1, h1.2, rfl, rfl, rfl, rfl, h2.1, h2.2, rfl, rfl, rfl, rfl, rfl,
    rfl, hn.1, hn.2.1, hn.2.2⟩

/-- The parameter tensor the first convolution of the C7 block is created
with, before `weight_norm` and `init_weights` run: one output row `(3, 4)`. -/
def w7 : ℕ → ℕ → ℕ → ℝ := fun _ _ m => if m = 0 then 3 else 4

/-- The weight-normalized convolution `weight_norm(nn.Conv1d(1, 1, 2))` whose
underlying parameter tensor is `w7`. -/
noncomputable def wn7 : WNConv1d := applyWeightNorm 1 1 2 w7

/-- The values `normal_(0, 0.01)` writes in the C7 scenario (all entries 2,
standing for an arbitrary draw). -/
def wSample7 : ℕ → ℕ → ℕ → ℝ := fun _ _ _ => 2

/-- C7 evidence: `TemporalBlock.init_weights` writes the drawn sample into the
tensor bound at `conv.weight`, but the weight a weight-normalized convolution
actually convolves with is recomputed from `weight_g`/`weight_v` by the
pre-forward hook, so the initialization never reaches the forward computation:
for every sample and every weight-normalized conv, the forward weight after
`init_weights` equals the forward weight before it, and concretely the C7 conv
convolves with the original entry 3, not the freshly written 2. -/
theorem tb_init_weights_discarded :
    (∀ (sample : ℕ → ℕ → ℕ → ℝ) (c : WNConv1d),
        wnForwardWeight (wnInitNormal sample c) = wnForwardWeight c) ∧
      wnForwardWeight (wnInitNormal wSample7 wn7) 0 0 0 = 3 ∧
      (wnInitNormal wSample7 wn7).weight 0 0 0 = 2 := by
  refine ⟨fun sample c => rfl, ?_, rfl⟩
  have h25 : wnRowNormSq w7 1 2 0 = 25 := by
    norm_num [wnRowNormSq, sumToR, w7]
  have hsq : Real.sqrt (wnRowNormSq w7 1 2 0) = 5 := by
    rw [h25, show (25 : ℝ) = 5 ^ 2 by norm_num, Real.sqrt_sq (by norm_num : (0 : ℝ) ≤ 5)]
  simp only [wnForwardWeight, wnComputeWeight, wnInitNormal, wn7, applyWeightNorm,
    wnPreForwardHook]
  rw [hsq]
  norm_num [w7]

/-- C8: after `init_weight` runs on a convolution or linear module that has a
bias, the bias is exactly the zero vector. -/
theorem init_weight_zeroes_bias (s : ℕ → ℕ → ℚ) (m : Module0) (b : ℕ → ℚ)
    (hk : isConvOrLinear m.kind = true) (hb : m.bias = some b) :
    (init_weight s m).bias = some (fun _ => 0) := by
  unfold init_weight
  rw [hk, if_pos rfl]
  simp [hb]

/-- Concrete linear module with a nonzero bias for the C8 witness. -/
def mW8 : Module0 := ⟨.linear, fun _ _ => 5, some (fun _ => 7)⟩

/-- Witness for C8 at a concrete linear module. -/
theorem init_weight_zeroes_bias_witness :
    isConvOrLinear mW8.kind = true ∧ mW8.bias = some (fun _ => 7) ∧
      (init_weight (fun _ _ => 3) mW8).bias = some (fun _ => 0) :=
  ⟨rfl, rfl, init_weight_zeroes_bias (fun _ _ => 3) mW8 (fun _ => 7) rfl rfl⟩

/-- C9: both init functions modify only convolution and linear modules — on any
other module kind they are the identity. -/
theorem init_fns_leave_others_unchanged (s s2 : ℕ → ℕ → ℚ) (b2 : ℕ → ℚ)
    (m : Module0) (hk : isConvOrLinear m.kind = false) :
    init_weight s m = m ∧ init_weight_skcnn s2 b2 m = m := by
  unfold init_weight init_weight_skcnn
  rw [hk]
  exact ⟨if_neg Bool.false_ne_true, if_neg Bool.false_ne_true⟩

/-- Concrete batch-norm module for the C9 witness. -/
def mW9 : Module0 := ⟨.batchNorm1d, fun _ _ => 4, some (fun _ => 6)⟩

/-- Witness for C9 at a concrete batch-norm module. -/
theorem init_fns_leave_others_unchanged_witness :
    isConvOrLinear mW9.kind = false ∧ init_weight (fun _ _ => 1) mW9 = mW9 ∧
      init_weight_skcnn (fun _ _ => 2) (fun _ => 3) mW9 = mW9 :=
  ⟨rfl, (init_fns_leave_others_unchanged (fun _ _ => 1) (fun _ _ => 2) (fun _ => 3) mW9 rfl).1,
    (init_fns_leave_others_unchanged (fun _ _ => 1) (fun _ _ => 2) (fun _ => 3) mW9 rfl).2⟩

/-- A temporal block with kernel size 1 and padding 0 always fails: the first
`Chomp1d` (chomp 0) empties the time axis and the second convolution rejects
an empty input. -/
theorem tb_forward_kernel_one (tb : TemporalBlock) (x : Tensor3)
    (hk : tb.kernel_size = 1) (hp : tb.padding = 0) :
    tb_forward tb x = none := by
  unfold tb_forward tb_net
  cases h1 : conv1dForward (tb_conv1 tb) x with
  | none => simp
  | some a1 =>
    rw [Option.some_bind]
    have h2 : conv1dForward (tb_conv2 tb) (reluT (chomp1dForward tb.padding a1)) = none := by
      unfold conv1dForward
      rw [if_neg]
      intro hv
      have h5 := hv.2.2.2.2
      simp [reluT, chomp1dForward, tb_conv2, hp, hk] at h5
    rw [h2]
    simp

/-- Folding the stack over an already-failed accumulator stays failed. -/
theorem tcnForwardAux_from_none (bs : List TemporalBlock) :
    bs.foldl (fun acc b => acc.bind (tb_forward b)) none = none := by
  induction bs with
  | nil => rfl
  | cons b bs ih =>
    simp only [List.foldl_cons, Option.none_bind]
    exact ih

/-- C10 (amended): `Chomp1d.forward` with `chomp_size = 0` empties the time
axis rather than returning the input unchanged, and consequently
`TemporalConvNet` with `kernel_size = 1` and a nonempty channel list returns
an error (not an output with an empty time axis) for every input: its first
block already fails. -/
theorem tcn_kernel_one_fails (ni : ℕ) (cs : List ℕ) (ws : ℕ → BlockWeights) (x x0 : Tensor3)
    (hcs : cs ≠ []) :
    (chomp1dForward 0 x0).d2 = 0 ∧ tcnForward ni cs 1 ws x = none := by
  refine ⟨rfl, ?_⟩
  cases cs with
  | nil => exact absurd rfl hcs
  | cons c cs' =>
    unfold tcnForward tcnForwardAux tcnBlocks
    rw [List.length_cons, List.range_succ_eq_map, List.map_cons, List.foldl_cons,
      Option.some_bind, tb_forward_kernel_one (tcnBlock ni (c :: cs') 1 ws 0) x rfl rfl]
    exact tcnForwardAux_from_none _

/-- Unit block weights for the C10 counterexample. -/
def ws10 : ℕ → BlockWeights :=
  fun _ => ⟨fun _ _ _ => 1, fun _ => 0, fun _ _ _ => 1, fun _ => 0, fun _ _ _ => 1, fun _ => 0⟩

/-- Concrete input for the C10 counterexample. -/
def x10 : Tensor3 := ⟨1, 1, fun _ _ => 5⟩

/-- C10 counterexample: `TemporalConvNet` with `kernel_size = 1` does NOT
produce an output with an empty time axis — it produces no output at all
(the second convolution of the first block rejects the chomped-empty input),
even though `Chomp1d` with chomp size 0 does empty the time axis. -/
theorem tcn_kernel_one_no_output :
    tcnForward 1 [1] 1 ws10 x10 = none ∧ (chomp1dForward 0 x10).d2 = 0 :=
  ⟨rfl, rfl⟩

/-- Witness for the amended C10 at a concrete stack and input. -/
theorem tcn_kernel_one_fails_witness :
    ([2] : List ℕ) ≠ [] ∧ (chomp1dForward 0 x10).d2 = 0 ∧
      tcnForward 3 [2] 1 ws10 x10 = none := by
  have h := tcn_kernel_one_fails 3 [2] ws10 x10 x10 (by decide)
  exact ⟨by decide, h.1, h.2⟩
